import Mathlib

/-!
# windows-fs — verification of the directory-stat accumulator and line parsers

A shallow embedding of `src/index.js` (both revisions present in the file:
the older one exporting `getDirSize`, the newer one exporting
`statDirectory`).  The walk primitive (the external `fswalk` dependency) is
modelled by its observable behaviour at the callback boundary: a finite
sequence of `onFile (path, stats)` events followed by one terminal
`onFinish` callback carrying either an error or success, exactly as §6 of
the design describes the collaborator contract.

JavaScript objects (the per-file metadata delivered by the walk, and the
records stored in `files`) are modelled as lists of key/value properties in
insertion order with unique keys, property read/write as `getField` /
`setKey`, and `Object.assign` as `objAssign`.  JavaScript `+=` on the size
accumulator is modelled by `jsAdd`, including the `NaN` result of adding
`undefined` and the string-concatenation result of adding a string.
-/

set_option maxHeartbeats 1000000

/-- A JavaScript value that can occur as a metadata field of a walk-reported
stats object: a (non-negative integral) number or a string.  Timestamps such
as `birthtime` are carried as opaque strings. -/
inductive JVal where
  | num : Nat → JVal
  | str : String → JVal
deriving DecidableEq, Repr

/-- A JavaScript object: its own enumerable properties, in insertion order.
JavaScript objects have pairwise-distinct keys; theorems that depend on this
carry it as a `Nodup` hypothesis. -/
abbrev JsObj : Type := List (String × JVal)

/-- The value of the JavaScript `size` accumulator: a number, `NaN`, or a
string (JavaScript `+` yields `NaN` when `undefined` is added to a number and
switches to string concatenation when either operand is a string). -/
inductive JNum where
  | num : Nat → JNum
  | nan : JNum
  | strv : String → JNum
deriving DecidableEq, Repr

/-- Rendering of a `JVal` as a JavaScript string (used by string
concatenation in `jsAdd`). -/
def jvalToString : JVal → String
  | JVal.num n => toString n
  | JVal.str s => s

/-- Rendering of a `JNum` as a JavaScript string. -/
def jnumToString : JNum → String
  | JNum.num n => toString n
  | JNum.nan => "NaN"
  | JNum.strv s => s

/-- JavaScript `acc + v` where `acc` is the accumulator and `v` is the read
property value (`none` models an absent field, i.e. `undefined`):
`number + number` adds, `number + undefined` and anything involving `NaN`
(other than strings) is `NaN`, and strings concatenate. -/
def jsAdd : JNum → Option JVal → JNum
  | JNum.strv s, none => JNum.strv (s ++ "undefined")
  | JNum.strv s, some v => JNum.strv (s ++ jvalToString v)
  | a, some (JVal.str t) => JNum.strv (jnumToString a ++ t)
  | JNum.num a, some (JVal.num b) => JNum.num (a + b)
  | _, _ => JNum.nan

/-- JavaScript property read `o[k]`: the value at the first matching key.
Polymorphic in the value type: it serves both the metadata objects
(values in `JVal`) and the `files` mapping (values are whole records). -/
def getField {β : Type} : List (String × β) → String → Option β
  | [], _ => none
  | (k2, v) :: rest, k => if k2 = k then some v else getField rest k

/-- JavaScript property write `o[k] = v`: replaces the value in place when
the key already exists, appends the property otherwise. -/
def setKey {β : Type} : List (String × β) → String → β → List (String × β)
  | [], k, v => [(k, v)]
  | (k2, v2) :: rest, k, v =>
      if k2 = k then (k2, v) :: rest else (k2, v2) :: setKey rest k v

/-- `Object.assign(target, src)`: copies every own property of `src` onto
`target`, in order. -/
def objAssign (target : JsObj) (src : JsObj) : JsObj :=
  src.foldl (fun t kv => setKey t kv.1 kv.2) target

/-- The record stored by `onFile`:
`Object.assign({name: path}, stats)` (src/index.js line 438). -/
def mkRecord (path : String) (stats : JsObj) : JsObj :=
  objAssign [("name", JVal.str path)] stats

/-- The accumulator state of one `statDirectory` invocation: the local
variables `size`, `count` and `files` of src/index.js lines 431–433. -/
structure DirStat where
  size : JNum
  count : Nat
  files : List (String × JsObj)
deriving DecidableEq, Repr

/-- The body of `statDirectory`'s `onFile` callback (src/index.js lines
437–441): store `Object.assign({name: path}, stats)` under the path key,
increment the count, and add `stats.size` to the running size. -/
def onFile (st : DirStat) (ev : String × JsObj) : DirStat :=
  { size := jsAdd st.size (getField ev.2 "size"),
    count := st.count + 1,
    files := setKey st.files ev.1 (mkRecord ev.1 ev.2) }

/-- One complete `statDirectory` walk (src/index.js lines 430–447), as a
function of the walk's observable behaviour: the sequence of `onFile`
events and the terminal `onFinish` argument (`some cause` for an error,
`none` for success).  On error the promise is rejected with the cause (the
spec's `WalkError`, surfaced unmodified); on success it resolves with the
accumulated `{ size, count, files }`. -/
def statDirectoryRun (events : List (String × JsObj)) (walkErr : Option String) :
    Except String DirStat :=
  match walkErr with
  | some e => Except.error e
  | none => Except.ok (events.foldl onFile ⟨JNum.num 0, 0, []⟩)

/-- One complete `getDirSize` walk of the older revision (src/index.js
lines 122–135): the `count` variable accumulates `stats.size` per file and
is resolved on success; errors reject the promise. -/
def getDirSizeRun (events : List (String × JsObj)) (walkErr : Option String) :
    Except String JNum :=
  match walkErr with
  | some e => Except.error e
  | none =>
      Except.ok (events.foldl (fun acc ev => jsAdd acc (getField ev.2 "size")) (JNum.num 0))

/-- The sum of the `size` fields over the entries of a `files` mapping,
taken with JavaScript addition (the quantity the spec's invariant compares
`totalSize` against). -/
def filesSizeSum (files : List (String × JsObj)) : JNum :=
  files.foldl (fun acc kv => jsAdd acc (getField kv.2 "size")) (JNum.num 0)

/-- `toWindowsPath`'s character substitution: `replace(/\//g, '\\')`
replaces each forward slash by a backslash. -/
def replSlash (c : Char) : Char := if c = '/' then '\\' else c

/-- `toWindowsPath` (src/index.js lines 462–464). -/
def toWindowsPath (path : String) : String := ⟨path.data.map replSlash⟩

/-- `toUnc` (src/index.js lines 541–543). -/
def toUnc (server : String) : String := "//" ++ server

/-- `toUncPath` (src/index.js lines 477–479). -/
def toUncPath (server : String) (share : String) : String :=
  toWindowsPath (toUnc server ++ "/" ++ share)

/-- Modelled from the spec: the spec describes `toUncPath` as
"concatenating `\\<server>\` with the normalized relative path", i.e. only
the share part is normalized.  Stated separately so it can be compared with
the source's `toUncPath`, which normalizes the whole concatenation. -/
def toUncPathSpec (server : String) (share : String) : String :=
  "\\\\" ++ server ++ "\\" ++ toWindowsPath share

/-- The JavaScript error kind thrown by the synchronous failures modelled
here (property access or method call on `undefined` / indexing `null`). -/
inductive JsError where
  | typeError : JsError
deriving DecidableEq, Repr

/-- The synchronous prelude of `statDirectory` (src/index.js line 428):
`path = toWindowsPath(path)` runs before `walk` is invoked.  The argument is
`none` for a call with `undefined`; the result is the normalized path handed
to the walk, or the synchronous `TypeError` raised by calling `.replace` on
`undefined`. -/
def statDirectoryStart (path : Option String) : Except JsError String :=
  match path with
  | none => Except.error JsError.typeError
  | some p => Except.ok (toWindowsPath p)

/-- Longest leading run of decimal digits (the greedy part of `/\d+/`). -/
def digitRun : List Char → List Char
  | [] => []
  | c :: cs => if c.isDigit then c :: digitRun cs else []

/-- `'th'.exec` semantics of `/\d+/`: the leftmost maximal digit run, or
`none` when the input holds no digit. -/
def findDigits : List Char → Option (List Char)
  | [] => none
  | c :: cs => if c.isDigit then some (c :: digitRun cs) else findDigits cs

/-- `parseNumber` (src/index.js lines 487–489): `/\d+/.exec(str)[0]`.  When
`exec` returns `null` (no digit anywhere), indexing it throws a
`TypeError`. -/
def parseNumber (str : String) : Except JsError String :=
  match findDigits str.data with
  | some m => Except.ok ⟨m⟩
  | none => Except.error JsError.typeError

/-- The JavaScript regex character class `\s`. -/
def jsSpace (c : Char) : Bool :=
  c == ' ' || c == '\t' || c == '\n' || c == '\x0b' || c == '\x0c' || c == '\r' ||
  c == '\xa0' || c == '\u1680' || ('\u2000' ≤ c && c ≤ '\u200a') ||
  c == '\u2028' || c == '\u2029' || c == '\u202f' || c == '\u205f' ||
  c == '\u3000' || c == '\ufeff'

/-- Longest leading run of non-whitespace characters (the greedy part of
`[^\s]+`). -/
def nonSpaceRun : List Char → List Char
  | [] => []
  | c :: cs => if jsSpace c then [] else c :: nonSpaceRun cs

/-- `exec` semantics of `/\\\\[^\s]+/`: the leftmost position carrying two
backslashes followed by at least one non-whitespace character, with the
greedy maximal run, or `none` when no such position exists. -/
def findUNC : List Char → Option (List Char)
  | [] => none
  | [_] => none
  | c :: c2 :: cs2 =>
      if c = '\\' ∧ c2 = '\\' ∧ nonSpaceRun cs2 ≠ [] then
        some (c :: c2 :: nonSpaceRun cs2)
      else findUNC (c2 :: cs2)

/-- `parseUNC` (src/index.js lines 531–533): `/\\\\[^\s]+/.exec(str)[0]`.
When `exec` returns `null`, indexing it throws a `TypeError`. -/
def parseUNC (str : String) : Except JsError String :=
  match findUNC str.data with
  | some m => Except.ok ⟨m⟩
  | none => Except.error JsError.typeError

/-- `exec` semantics of `/([A-Z]):/`: the leftmost uppercase letter that is
immediately followed by a colon, returning the two-character whole match, or
`none`. -/
def findDrive : List Char → Option (List Char)
  | [] => none
  | [_] => none
  | c :: c2 :: cs2 =>
      if ('A' ≤ c ∧ c ≤ 'Z') ∧ c2 = ':' then some [c, c2]
      else findDrive (c2 :: cs2)

/-- `parseDriveLetter` of the newer revision (src/index.js lines 501–508):
`re.test` guards the `exec`, so a miss returns `null` instead of
throwing. -/
def parseDriveLetter (str : String) : Option String :=
  (findDrive str.data).map String.mk

/-- The JavaScript regex character class `\w`. -/
def isWordChar (c : Char) : Bool :=
  ('A' ≤ c && c ≤ 'Z') || ('a' ≤ c && c ≤ 'z') || ('0' ≤ c && c ≤ '9') || c == '_'

/-- `parseStatus` (src/index.js lines 516–523): `/^\w+/` guarded by
`re.test`, so a miss returns `null`; a hit is the leading word-character
run. -/
def parseStatus (str : String) : Option String :=
  let r := str.data.takeWhile isWordChar
  if r = [] then none else some ⟨r⟩

/-- `true` when a read `size` property is a number or absent (the shapes an
`fs.Stats`-like object can present); `false` when it is a string. -/
def sizeNumeric (v : Option JVal) : Bool :=
  match v with
  | none => true
  | some (JVal.num _) => true
  | some (JVal.str _) => false

/-- `true` when the accumulator is a number or `NaN` (not a string). -/
def numericAcc (a : JNum) : Bool :=
  match a with
  | JNum.strv _ => false
  | _ => true

deriving instance DecidableEq for Except

/-! ## Helper lemmas: JavaScript object operations -/

theorem getField_setKey_self {β : Type} (l : List (String × β)) (k : String) (v : β) :
    getField (setKey l k v) k = some v := by
  induction l with
  | nil => simp [setKey, getField]
  | cons kv rest ih =>
      obtain ⟨k2, v2⟩ := kv
      by_cases h : k2 = k
      · simp [setKey, h, getField]
      · simp [setKey, h, getField, ih]

theorem getField_setKey_ne {β : Type} (l : List (String × β)) (k k2 : String) (v : β)
    (h : k2 ≠ k) : getField (setKey l k v) k2 = getField l k2 := by
  induction l with
  | nil => simp [setKey, getField, Ne.symm h]
  | cons kv rest ih =>
      obtain ⟨k3, v3⟩ := kv
      by_cases h3 : k3 = k
      · have h5 : ¬k3 = k2 := fun e => h (e.symm.trans h3)
        simp only [setKey, if_pos h3]
        simp [getField, h5]
      · by_cases h4 : k3 = k2
        · simp only [setKey, if_neg h3]
          simp [getField, h4]
        · simp only [setKey, if_neg h3]
          simp [getField, h4, ih]

theorem getField_eq_none {β : Type} (l : List (String × β)) (k : String) :
    getField l k = none ↔ k ∉ l.map Prod.fst := by
  induction l with
  | nil => simp [getField]
  | cons kv rest ih =>
      obtain ⟨k2, v2⟩ := kv
      by_cases h : k2 = k
      · simp [getField, h]
      · simp [getField, h, ih, Ne.symm h]

theorem setKey_eq_append {β : Type} (l : List (String × β)) (k : String) (v : β)
    (h : k ∉ l.map Prod.fst) : setKey l k v = l ++ [(k, v)] := by
  induction l with
  | nil => simp [setKey]
  | cons kv rest ih =>
      obtain ⟨k2, v2⟩ := kv
      simp only [List.map_cons, List.mem_cons] at h
      push_neg at h
      simp [setKey, Ne.symm h.1, ih h.2]

theorem objAssign_getField_of_none (t src : JsObj) (k : String)
    (h : getField src k = none) : getField (objAssign t src) k = getField t k := by
  induction src generalizing t with
  | nil => rfl
  | cons kv rest ih =>
      obtain ⟨k2, v2⟩ := kv
      simp only [getField] at h
      by_cases h2 : k2 = k
      · simp [h2] at h
      · simp only [h2, if_false] at h
        show getField (objAssign (setKey t k2 v2) rest) k = getField t k
        rw [ih (setKey t k2 v2) h]
        exact getField_setKey_ne t k2 k v2 (Ne.symm h2)

theorem objAssign_getField_of_some (t src : JsObj) (k : String) (v : JVal)
    (hnd : (src.map Prod.fst).Nodup) (h : getField src k = some v) :
    getField (objAssign t src) k = some v := by
  induction src generalizing t with
  | nil => simp [getField] at h
  | cons kv rest ih =>
      obtain ⟨k2, v2⟩ := kv
      simp only [List.map_cons, List.nodup_cons] at hnd
      simp only [getField] at h
      by_cases h2 : k2 = k
      · simp only [h2, if_true, Option.some.injEq] at h
        subst h2
        subst h
        show getField (objAssign (setKey t k2 v2) rest) k2 = some v2
        have hrest : getField rest k2 = none := (getField_eq_none rest k2).mpr hnd.1
        rw [objAssign_getField_of_none (setKey t k2 v2) rest k2 hrest]
        exact getField_setKey_self t k2 v2
      · simp only [h2, if_false] at h
        exact ih (setKey t k2 v2) hnd.2 h

theorem mkRecord_getField_name (p : String) (stats : JsObj)
    (h : getField stats "name" = none) :
    getField (mkRecord p stats) "name" = some (JVal.str p) := by
  rw [mkRecord, objAssign_getField_of_none _ stats _ h]
  rfl

theorem mkRecord_getField_copy (p : String) (stats : JsObj) (k : String) (v : JVal)
    (hnd : (stats.map Prod.fst).Nodup) (h : getField stats k = some v) :
    getField (mkRecord p stats) k = some v :=
  objAssign_getField_of_some _ stats k v hnd h

theorem mkRecord_getField_size (p : String) (stats : JsObj)
    (hnd : (stats.map Prod.fst).Nodup) :
    getField (mkRecord p stats) "size" = getField stats "size" := by
  cases h : getField stats "size" with
  | none =>
      rw [mkRecord, objAssign_getField_of_none _ stats _ h]
      rfl
  | some v => exact mkRecord_getField_copy p stats _ v hnd h

/-! ## Helper lemmas: the accumulator fold -/

theorem foldl_onFile_size (events : List (String × JsObj)) (st : DirStat) :
    (events.foldl onFile st).size =
      events.foldl (fun a ev => jsAdd a (getField ev.2 "size")) st.size := by
  induction events generalizing st with
  | nil => rfl
  | cons ev evs ih => exact ih (onFile st ev)

theorem foldl_onFile_full (events : List (String × JsObj)) (st : DirStat)
    (hnd : (events.map Prod.fst).Nodup)
    (hdisj : ∀ ev ∈ events, ev.1 ∉ st.files.map Prod.fst) :
    events.foldl onFile st =
      ⟨events.foldl (fun a ev => jsAdd a (getField ev.2 "size")) st.size,
       st.count + events.length,
       st.files ++ events.map (fun ev => (ev.1, mkRecord ev.1 ev.2))⟩ := by
  induction events generalizing st with
  | nil => simp
  | cons ev evs ih =>
      have hev : ev.1 ∉ st.files.map Prod.fst := hdisj ev (List.mem_cons_self ev evs)
      have hkey : setKey st.files ev.1 (mkRecord ev.1 ev.2)
          = st.files ++ [(ev.1, mkRecord ev.1 ev.2)] := setKey_eq_append _ _ _ hev
      simp only [List.map_cons, List.nodup_cons] at hnd
      have hdisj2 : ∀ e ∈ evs, e.1 ∉ (onFile st ev).files.map Prod.fst := by
        intro e he
        have h1 : e.1 ∉ st.files.map Prod.fst := hdisj e (List.mem_cons_of_mem ev he)
        have h2 : e.1 ≠ ev.1 := by
          intro hcontra
          exact hnd.1 (hcontra ▸ List.mem_map_of_mem Prod.fst he)
        simp [onFile, hkey, h1, h2]
      rw [List.foldl_cons, ih (onFile st ev) hnd.2 hdisj2]
      simp only [onFile, List.foldl_cons, List.map_cons, List.length_cons,
        DirStat.mk.injEq]
      refine ⟨trivial, by omega, ?_⟩
      rw [hkey, List.append_assoc]
      rfl

/-! ## Helper lemmas: NaN propagation in the size accumulator -/

theorem jsAdd_none_of_numeric (a : JNum) (h : numericAcc a = true) :
    jsAdd a none = JNum.nan := by
  cases a with
  | num n => rfl
  | nan => rfl
  | strv s => simp [numericAcc] at h

theorem jsAdd_num_numeric (a : JNum) (n : Nat) (h : numericAcc a = true) :
    numericAcc (jsAdd a (some (JVal.num n))) = true := by
  cases a with
  | num m => rfl
  | nan => rfl
  | strv s => simp [numericAcc] at h

theorem sizeFold_nan (events : List (String × JsObj))
    (h : ∀ ev ∈ events, sizeNumeric (getField ev.2 "size") = true) :
    events.foldl (fun a ev => jsAdd a (getField ev.2 "size")) JNum.nan = JNum.nan := by
  induction events with
  | nil => rfl
  | cons ev evs ih =>
      have h1 := h ev (List.mem_cons_self ev evs)
      rcases hv : getField ev.2 "size" with _ | v
      · simp only [List.foldl_cons, hv]
        exact ih (fun e he => h e (List.mem_cons_of_mem ev he))
      · rcases v with n | t
        · simp only [List.foldl_cons, hv]
          exact ih (fun e he => h e (List.mem_cons_of_mem ev he))
        · rw [hv] at h1
          simp [sizeNumeric] at h1

theorem sizeFold_missing (events : List (String × JsObj)) :
    ∀ acc : JNum, numericAcc acc = true →
    (∀ ev ∈ events, sizeNumeric (getField ev.2 "size") = true) →
    (∃ ev ∈ events, getField ev.2 "size" = none) →
    events.foldl (fun a ev => jsAdd a (getField ev.2 "size")) acc = JNum.nan := by
  induction events with
  | nil =>
      intro acc _ _ hmiss
      simp at hmiss
  | cons ev evs ih =>
      intro acc hacc hnum hmiss
      rcases hv : getField ev.2 "size" with _ | v
      · simp only [List.foldl_cons, hv]
        rw [jsAdd_none_of_numeric acc hacc]
        exact sizeFold_nan evs (fun e he => hnum e (List.mem_cons_of_mem ev he))
      · rcases v with n | t
        · simp only [List.foldl_cons, hv]
          refine ih (jsAdd acc (some (JVal.num n))) (jsAdd_num_numeric acc n hacc)
            (fun e he => hnum e (List.mem_cons_of_mem ev he)) ?_
          obtain ⟨e0, he0, hnone⟩ := hmiss
          rcases List.mem_cons.mp he0 with rfl | he0evs
          · rw [hv] at hnone
            cases hnone
          · exact ⟨e0, he0evs, hnone⟩
        · have h1 := hnum ev (List.mem_cons_self ev evs)
          rw [hv] at h1
          simp [sizeNumeric] at h1

theorem filesSizeSum_map (events : List (String × JsObj)) :
    (∀ ev ∈ events, (ev.2.map Prod.fst).Nodup) →
    ∀ acc : JNum,
      (events.map (fun ev => (ev.1, mkRecord ev.1 ev.2))).foldl
          (fun a kv => jsAdd a (getField kv.2 "size")) acc =
        events.foldl (fun a ev => jsAdd a (getField ev.2 "size")) acc := by
  induction events with
  | nil => intro _ acc; rfl
  | cons ev evs ih =>
      intro hstats acc
      simp only [List.map_cons, List.foldl_cons]
      rw [mkRecord_getField_size ev.1 ev.2 (hstats ev (List.mem_cons_self ev evs))]
      exact ih (fun e he => hstats e (List.mem_cons_of_mem ev he)) _

theorem mem_setKey {β : Type} (l : List (String × β)) (k : String) (v : β)
    (p : String) (r : β) (h : (p, r) ∈ setKey l k v) :
    (p, r) ∈ l ∨ (p = k ∧ r = v) := by
  induction l with
  | nil =>
      simp only [setKey, List.mem_singleton] at h
      injection h with hp hr
      exact Or.inr ⟨hp, hr⟩
  | cons kv rest ih =>
      obtain ⟨k2, v2⟩ := kv
      by_cases hk : k2 = k
      · simp only [setKey, if_pos hk] at h
        rcases List.mem_cons.mp h with heq | hmem
        · injection heq with hp hr
          exact Or.inr ⟨hp.trans hk, hr⟩
        · exact Or.inl (List.mem_cons_of_mem _ hmem)
      · simp only [setKey, if_neg hk] at h
        rcases List.mem_cons.mp h with heq | hmem
        · exact Or.inl (heq ▸ List.mem_cons_self _ _)
        · rcases ih hmem with h2 | h2
          · exact Or.inl (List.mem_cons_of_mem _ h2)
          · exact Or.inr h2

theorem foldl_files_mem (events : List (String × JsObj)) :
    ∀ (st : DirStat) (p : String) (r : JsObj),
      (p, r) ∈ (events.foldl onFile st).files →
      (p, r) ∈ st.files ∨ ∃ stats, (p, stats) ∈ events ∧ r = mkRecord p stats := by
  induction events with
  | nil => intro st p r h; exact Or.inl h
  | cons ev evs ih =>
      intro st p r h
      rcases ih (onFile st ev) p r h with hmem | ⟨stats, hin, hr⟩
      · rcases mem_setKey st.files ev.1 (mkRecord ev.1 ev.2) p r hmem with h2 | ⟨hp, hr⟩
        · exact Or.inl h2
        · subst hp
          refine Or.inr ⟨ev.2, ?_, hr⟩
          have he : (ev.1, ev.2) = ev := Prod.mk.eta
          rw [he]
          exact List.mem_cons_self ev evs
      · exact Or.inr ⟨stats, List.mem_cons_of_mem ev hin, hr⟩

/-! ## Helper lemmas: regex first-match characterizations -/

theorem findDigits_eq_none (l : List Char) :
    findDigits l = none ↔ ∀ c ∈ l, c.isDigit = false := by
  induction l with
  | nil => simp [findDigits]
  | cons c cs ih =>
      by_cases h : c.isDigit
      · simp [findDigits, h]
      · simp [findDigits, h, ih]

theorem nonSpaceRun_ne_nil (l : List Char) :
    nonSpaceRun l ≠ [] ↔ ∃ c0 rest, l = c0 :: rest ∧ jsSpace c0 = false := by
  cases l with
  | nil => simp [nonSpaceRun]
  | cons c cs =>
      by_cases h : jsSpace c
      · simp [nonSpaceRun, h]
      · simp [nonSpaceRun, h]

theorem findUNC_some_ex (l m : List Char) (h : findUNC l = some m) :
    ∃ a c0 rest, l = a ++ '\\' :: '\\' :: c0 :: rest ∧ jsSpace c0 = false := by
  induction l with
  | nil => simp [findUNC] at h
  | cons c cs ih =>
      cases cs with
      | nil => simp [findUNC] at h
      | cons c2 cs2 =>
          by_cases hc : c = '\\' ∧ c2 = '\\' ∧ nonSpaceRun cs2 ≠ []
          · obtain ⟨h1, h2, h3⟩ := hc
            obtain ⟨c0, rest, hcs2, hsp⟩ := (nonSpaceRun_ne_nil cs2).mp h3
            exact ⟨[], c0, rest, by rw [h1, h2, hcs2]; rfl, hsp⟩
          · simp only [findUNC] at h
            rw [if_neg hc] at h
            obtain ⟨a, c0, rest, heq, hsp⟩ := ih h
            exact ⟨c :: a, c0, rest, by rw [heq]; rfl, hsp⟩

theorem findUNC_isSome_of_ex (a : List Char) (c0 : Char) (rest : List Char)
    (hsp : jsSpace c0 = false) :
    findUNC (a ++ '\\' :: '\\' :: c0 :: rest) ≠ none := by
  induction a with
  | nil =>
      have h3 : nonSpaceRun (c0 :: rest) ≠ [] :=
        (nonSpaceRun_ne_nil _).mpr ⟨c0, rest, rfl, hsp⟩
      simp only [List.nil_append, findUNC]
      rw [if_pos ⟨trivial, trivial, h3⟩]
      simp
  | cons x a2 ih =>
      rcases ha : a2 ++ '\\' :: '\\' :: c0 :: rest with _ | ⟨r1, r2⟩
      · simp at ha
      · rw [List.cons_append, ha]
        simp only [findUNC]
        by_cases hc : x = '\\' ∧ r1 = '\\' ∧ nonSpaceRun r2 ≠ []
        · rw [if_pos hc]
          simp
        · rw [if_neg hc, ← ha]
          exact ih

theorem findUNC_eq_none (l : List Char) :
    findUNC l = none ↔
      ¬ ∃ a c0 rest, l = a ++ '\\' :: '\\' :: c0 :: rest ∧ jsSpace c0 = false := by
  constructor
  · rintro h ⟨a, c0, rest, heq, hsp⟩
    exact findUNC_isSome_of_ex a c0 rest hsp (heq ▸ h)
  · intro h
    cases hf : findUNC l with
    | none => rfl
    | some m => exact absurd (findUNC_some_ex l m hf) h

theorem findDrive_some_ex (l m : List Char) (h : findDrive l = some m) :
    ∃ a c rest, l = a ++ c :: ':' :: rest ∧ ('A' ≤ c ∧ c ≤ 'Z') := by
  induction l with
  | nil => simp [findDrive] at h
  | cons c cs ih =>
      cases cs with
      | nil => simp [findDrive] at h
      | cons c2 cs2 =>
          by_cases hc : ('A' ≤ c ∧ c ≤ 'Z') ∧ c2 = ':'
          · exact ⟨[], c, cs2, by rw [hc.2]; rfl, hc.1⟩
          · simp only [findDrive] at h
            rw [if_neg hc] at h
            obtain ⟨a, c3, rest, heq, hb⟩ := ih h
            exact ⟨c :: a, c3, rest, by rw [heq]; rfl, hb⟩

theorem findDrive_isSome_of_ex (a : List Char) (c : Char) (rest : List Char)
    (hb : 'A' ≤ c ∧ c ≤ 'Z') :
    findDrive (a ++ c :: ':' :: rest) ≠ none := by
  induction a with
  | nil =>
      simp only [List.nil_append, findDrive]
      rw [if_pos ⟨hb, trivial⟩]
      simp
  | cons x a2 ih =>
      rcases ha : a2 ++ c :: ':' :: rest with _ | ⟨r1, r2⟩
      · simp at ha
      · rw [List.cons_append, ha]
        simp only [findDrive]
        by_cases hc : ('A' ≤ x ∧ x ≤ 'Z') ∧ r1 = ':'
        · rw [if_pos hc]
          simp
        · rw [if_neg hc, ← ha]
          exact ih

theorem findDrive_eq_none (l : List Char) :
    findDrive l = none ↔
      ¬ ∃ a c rest, l = a ++ c :: ':' :: rest ∧ ('A' ≤ c ∧ c ≤ 'Z') := by
  constructor
  · rintro h ⟨a, c, rest, heq, hb⟩
    exact findDrive_isSome_of_ex a c rest hb (heq ▸ h)
  · intro h
    cases hf : findDrive l with
    | none => rfl
    | some m => exact absurd (findDrive_some_ex l m hf) h

theorem takeWhile_word_eq_nil (l : List Char) :
    l.takeWhile isWordChar = [] ↔ ∀ c, l.head? = some c → isWordChar c = false := by
  cases l with
  | nil => simp
  | cons c cs =>
      by_cases h : isWordChar c
      · simp [List.takeWhile_cons, h]
      · simp [List.takeWhile_cons, h]

/-! ## Claim theorems -/

/-- Claim C1 counterexample: when the walk reports the same path twice, the
resulting state violates the claimed invariant — `files["a"]` is overwritten
while `count` and `size` keep accumulating, so `fileCount` (2) differs from
the number of entries in `files` (1) and `totalSize` (3) differs from the sum
of the stored sizes (2).  The claim quantifies over such duplicate
sequences explicitly, so it fails on the code. -/
theorem statDirectory_duplicate_path_counterexample :
    ∃ st,
      statDirectoryRun [("a", [("size", JVal.num 1)]), ("a", [("size", JVal.num 2)])] none
        = Except.ok st ∧
      st.count ≠ st.files.length ∧ st.size ≠ filesSizeSum st.files := by
  refine ⟨_, rfl, ?_, ?_⟩ <;> decide

/-- Claim C1 (amended): on every successful walk in which no path is
reported twice (and each metadata object has, as every JavaScript object
does, pairwise-distinct keys), the resolved state satisfies the invariant:
`size` equals the sum of the `size` fields over the entries of `files`, and
`count` equals the number of entries of `files`. -/
theorem statDirectory_total_and_count_invariant (events : List (String × JsObj))
    (st : DirStat) (hpaths : (events.map Prod.fst).Nodup)
    (hstats : ∀ ev ∈ events, (ev.2.map Prod.fst).Nodup)
    (hrun : statDirectoryRun events none = Except.ok st) :
    st.size = filesSizeSum st.files ∧ st.count = st.files.length := by
  have hst : st = events.foldl onFile ⟨JNum.num 0, 0, []⟩ := (Except.ok.inj hrun).symm
  have hfull := foldl_onFile_full events ⟨JNum.num 0, 0, []⟩ hpaths (by intro ev hv; simp)
  rw [hst, hfull]
  constructor
  · show events.foldl _ (JNum.num 0) = filesSizeSum ([] ++ events.map _)
    rw [List.nil_append]
    exact (filesSizeSum_map events hstats (JNum.num 0)).symm
  · show 0 + events.length = ([] ++ events.map _).length
    simp

/-- Claim C1 witness: the amended invariant evaluated on a concrete
duplicate-free walk of two files. -/
theorem statDirectory_invariant_witness :
    ∃ st,
      statDirectoryRun [("a", [("size", JVal.num 3)]), ("b", [("size", JVal.num 4)])] none
        = Except.ok st ∧
      st.size = filesSizeSum st.files ∧ st.count = st.files.length := by
  refine ⟨_, rfl, ?_⟩
  exact statDirectory_total_and_count_invariant _ _ (by decide) (by decide) rfl

/-- Claim C2 counterexample: on inputs holding no match, `parseNumber` and
`parseUNC` throw a `TypeError` (from indexing the `null` returned by
`exec`) instead of returning a not-found signal, refuting the claim that
none of the four parsers throws for "not found"; `parseDriveLetter` and
`parseStatus` do return `null`. -/
theorem parseNumber_throws_on_no_match :
    parseNumber "abc." = Except.error JsError.typeError ∧
      parseUNC "no unc here" = Except.error JsError.typeError ∧
      parseDriveLetter "xyz" = none ∧ parseStatus " x" = none := by
  refine ⟨rfl, by decide, by decide, by decide⟩

/-- Claim C2 (amended): each line parser is a deterministic pure function of
its input line returning the first regex match.  The drive-letter parser and
the status parser signal "no match" with `null` and never throw, but the
digit-run parser and the UNC parser throw a `TypeError` exactly when the
line holds no match: no digit anywhere, respectively no two backslashes
followed by a non-whitespace character. -/
theorem parsers_nomatch_behavior (s : String) :
    (parseNumber s = Except.error JsError.typeError ↔ ∀ c ∈ s.data, c.isDigit = false) ∧
    (parseUNC s = Except.error JsError.typeError ↔
      ¬ ∃ a c0 rest, s.data = a ++ '\\' :: '\\' :: c0 :: rest ∧ jsSpace c0 = false) ∧
    (parseDriveLetter s = none ↔
      ¬ ∃ a c rest, s.data = a ++ c :: ':' :: rest ∧ ('A' ≤ c ∧ c ≤ 'Z')) ∧
    (parseStatus s = none ↔ ∀ c, s.data.head? = some c → isWordChar c = false) := by
  refine ⟨?_, ?_, ?_, ?_⟩
  · rw [← findDigits_eq_none]
    cases h : findDigits s.data with
    | none => simp [parseNumber, h]
    | some m => simp [parseNumber, h]
  · rw [← findUNC_eq_none]
    cases h : findUNC s.data with
    | none => simp [parseUNC, h]
    | some m => simp [parseUNC, h]
  · rw [← findDrive_eq_none]
    cases h : findDrive s.data with
    | none => simp [parseDriveLetter, h]
    | some m => simp [parseDriveLetter, h]
  · rw [← takeWhile_word_eq_nil]
    by_cases h : s.data.takeWhile isWordChar = []
    · simp [parseStatus, h]
    · simp [parseStatus, h]

/-- Claim C2 witness: the digit parser's throw condition discharged on a
concrete digit-free line. -/
theorem parsers_nomatch_witness : parseNumber "abc" = Except.error JsError.typeError :=
  (parsers_nomatch_behavior "abc").1.mpr (by decide)

/-- Claim C3 counterexample: the empty string is not rejected synchronously.
`''.replace(/\//g, '\\')` is just `''`, so the prelude succeeds and the walk
is started with the empty path; any failure then happens asynchronously in
the walk, refuting the claim that every invalid (empty or undefined) path
fails before the traversal begins. -/
theorem statDirectory_empty_path_no_sync_failure :
    statDirectoryStart (some "") = Except.ok "" ∧
      ∀ e : JsError, statDirectoryStart (some "") ≠ Except.error e :=
  ⟨rfl, fun _ h => Except.noConfusion h⟩

/-- Claim C3 (amended): only the undefined path fails synchronously (a
`TypeError` from calling `.replace` on `undefined`, raised before `walk` is
invoked); every string path — the empty string included — is normalized and
handed to the walk. -/
theorem statDirectory_sync_failure_only_undefined :
    statDirectoryStart none = Except.error JsError.typeError ∧
      ∀ p : String, statDirectoryStart (some p) = Except.ok (toWindowsPath p) :=
  ⟨rfl, fun _ => rfl⟩

/-- Claim C4 (confirmed): whenever the walk terminates with an error, the
operation fails with exactly the underlying cause (the spec's `WalkError`,
surfaced unmodified) and no accumulated state is observable: the result is
never `ok`, whatever `onFile` events preceded the error. -/
theorem statDirectory_walk_error_no_partial (events : List (String × JsObj))
    (cause : String) :
    statDirectoryRun events (some cause) = Except.error cause ∧
      ∀ st : DirStat, statDirectoryRun events (some cause) ≠ Except.ok st :=
  ⟨rfl, fun _ h => Except.noConfusion h⟩

/-- Claim C5 counterexample: a file whose metadata has no `size` field does
not contribute 0 — JavaScript `size += undefined` makes the accumulator
`NaN`, so after a sizeless file and a 5-byte file the total is `NaN`, not
5. -/
theorem missing_size_not_zero_counterexample :
    ∃ st,
      statDirectoryRun [("a", ([] : JsObj)), ("b", [("size", JVal.num 5)])] none
        = Except.ok st ∧
      st.size = JNum.nan ∧ st.size ≠ JNum.num 5 := by
  refine ⟨_, rfl, ?_, ?_⟩ <;> decide

/-- Claim C5 (amended): on every successful walk whose metadata sizes are
numeric where present, a single file with a missing `size` field poisons the
whole total: the resolved `size` is `NaN`, not the sum of the remaining
files' sizes. -/
theorem missing_size_poisons_total (events : List (String × JsObj)) (st : DirStat)
    (hnum : ∀ ev ∈ events, sizeNumeric (getField ev.2 "size") = true)
    (hmiss : ∃ ev ∈ events, getField ev.2 "size" = none)
    (hrun : statDirectoryRun events none = Except.ok st) :
    st.size = JNum.nan := by
  have hst : st = events.foldl onFile ⟨JNum.num 0, 0, []⟩ := (Except.ok.inj hrun).symm
  rw [hst, foldl_onFile_size]
  exact sizeFold_missing events (JNum.num 0) rfl hnum hmiss

/-- Claim C5 witness: the amended statement discharged on a one-file walk
whose metadata lacks a size. -/
theorem missing_size_witness :
    ∃ st, statDirectoryRun [("a", ([] : JsObj))] none = Except.ok st ∧
      st.size = JNum.nan := by
  refine ⟨_, rfl, ?_⟩
  exact missing_size_poisons_total _ _ (by decide) (by decide) rfl

/-- Claim C6 (confirmed): a successful walk that delivered no `onFile`
callback resolves with exactly zero total size, zero file count and an
empty file mapping (the source's field names are `size`, `count`,
`files`). -/
theorem statDirectory_empty_walk :
    statDirectoryRun [] none = Except.ok ⟨JNum.num 0, 0, []⟩ := rfl

/-- Claim C7 (confirmed): path normalization is idempotent, and a string
holding no forward slash is returned unchanged. -/
theorem toWindowsPath_idempotent (p : String) :
    toWindowsPath (toWindowsPath p) = toWindowsPath p ∧
      ('/' ∉ p.data → toWindowsPath p = p) := by
  constructor
  · show String.mk ((p.data.map replSlash).map replSlash) = String.mk (p.data.map replSlash)
    rw [List.map_map]
    refine congrArg String.mk (List.map_congr_left ?_)
    intro c _
    show replSlash (replSlash c) = replSlash c
    by_cases h : c = '/'
    · rw [h]
      decide
    · simp [replSlash, h]
  · intro h
    show String.mk (p.data.map replSlash) = p
    have h2 : p.data.map replSlash = p.data.map id :=
      List.map_congr_left (fun c hc => by
        have hc2 : c ≠ '/' := fun e => h (e ▸ hc)
        simp [replSlash, hc2])
    rw [h2, List.map_id]

/-- Claim C7 witness: idempotence at a slash-carrying path and identity at
an already-normalized path. -/
theorem toWindowsPath_idempotent_witness :
    toWindowsPath (toWindowsPath "a/b") = toWindowsPath "a/b" ∧
      toWindowsPath "abc" = "abc" :=
  ⟨(toWindowsPath_idempotent "a/b").1, (toWindowsPath_idempotent "abc").2 (by decide)⟩

/-- Strings with equal character data are equal. -/
theorem string_eq_of_data {a b : String} (h : a.data = b.data) : a = b := by
  cases a
  cases b
  exact congrArg String.mk h

/-- Claim C8 counterexample: the claimed formula fails for a server name
containing a forward slash, because the source normalizes the whole
concatenation — the server part included — while the claim's formula leaves
the server name untouched. -/
theorem toUncPath_server_slash_counterexample :
    toUncPath "a/b" "p" = "\\\\a\\b\\p" ∧ toUncPathSpec "a/b" "p" = "\\\\a/b\\p" ∧
      toUncPath "a/b" "p" ≠ toUncPathSpec "a/b" "p" := by
  refine ⟨by decide, by decide, by decide⟩

/-- Claim C8 (amended): for every server name holding no forward slash —
every actual server name — `toUncPath` agrees with the spec's formula: the
prefix `\\<server>\` concatenated with the normalized share path. -/
theorem toUncPath_eq_spec_of_no_slash (s p : String) (h : '/' ∉ s.data) :
    toUncPath s p = toUncPathSpec s p := by
  have hs : s.data.map replSlash = s.data := by
    have h2 : s.data.map replSlash = s.data.map id :=
      List.map_congr_left (fun c hc => by
        have hc2 : c ≠ '/' := fun e => h (e ▸ hc)
        simp [replSlash, hc2])
    rw [h2, List.map_id]
  have e1 : List.map replSlash ("//".data) = "\\\\".data := by decide
  have e2 : List.map replSlash ("/".data) = "\\".data := by decide
  apply string_eq_of_data
  show (("//" ++ s ++ "/" ++ p).data).map replSlash
      = ("\\\\" ++ s ++ "\\" ++ toWindowsPath p).data
  have d1 : ("//" ++ s ++ "/" ++ p).data = "//".data ++ s.data ++ "/".data ++ p.data := rfl
  have d2 : ("\\\\" ++ s ++ "\\" ++ toWindowsPath p).data
      = "\\\\".data ++ s.data ++ "\\".data ++ p.data.map replSlash := rfl
  rw [d1, d2]
  simp [List.map_append, e1, e2, hs, replSlash]

/-- Claim C8 witness: the spec's concrete scenario, through the amended
theorem, together with the literal value both sides take. -/
theorem toUncPath_witness :
    toUncPath "server" "some/path/to/a/log" = toUncPathSpec "server" "some/path/to/a/log" ∧
      toUncPath "server" "some/path/to/a/log" = "\\\\server\\some\\path\\to\\a\\log" :=
  ⟨toUncPath_eq_spec_of_no_slash "server" "some/path/to/a/log" (by decide), by decide⟩

/-- Claim C9 (confirmed): for every walk behaviour — any event sequence and
any terminal outcome — the older revision's `getDirSize` resolves to exactly
the `size` field of the newer revision's `statDirectory` result, and both
reject with the same error when the walk fails. -/
theorem getDirSize_refines_statDirectory_size (events : List (String × JsObj))
    (walkErr : Option String) :
    getDirSizeRun events walkErr
      = Except.map DirStat.size (statDirectoryRun events walkErr) := by
  cases walkErr with
  | some e => rfl
  | none => exact congrArg Except.ok (foldl_onFile_size events ⟨JNum.num 0, 0, []⟩).symm

/-- Claim C10 (confirmed): every entry of a successfully resolved `files`
mapping is the record `Object.assign({name: path}, stats)` built from some
delivered event with that path; hence, when the delivered metadata has no
`name` field, the stored record's `name` equals the path key, and every
metadata field is copied into the record unchanged. -/
theorem statDirectory_record_name_and_copy (events : List (String × JsObj)) (st : DirStat)
    (hrun : statDirectoryRun events none = Except.ok st)
    (p : String) (r : JsObj) (hmem : (p, r) ∈ st.files) :
    ∃ stats, (p, stats) ∈ events ∧ r = mkRecord p stats ∧
      (getField stats "name" = none → getField r "name" = some (JVal.str p)) ∧
      ((stats.map Prod.fst).Nodup →
        ∀ k v, getField stats k = some v → getField r k = some v) := by
  have hst : st = events.foldl onFile ⟨JNum.num 0, 0, []⟩ := (Except.ok.inj hrun).symm
  rw [hst] at hmem
  rcases foldl_files_mem events ⟨JNum.num 0, 0, []⟩ p r hmem with h | ⟨stats, hin, hr⟩
  · simp at h
  · refine ⟨stats, hin, hr, ?_, ?_⟩
    · intro hname
      rw [hr]
      exact mkRecord_getField_name p stats hname
    · intro hnd k v hv
      rw [hr]
      exact mkRecord_getField_copy p stats k v hnd hv

/-- Claim C10 witness: the record stored for a concrete one-file walk,
with both implications discharged on it. -/
theorem statDirectory_record_witness :
    ∃ stats, ("p", stats) ∈ ([("p", [("size", JVal.num 7)])] : List (String × JsObj)) ∧
      ([("name", JVal.str "p"), ("size", JVal.num 7)] : JsObj) = mkRecord "p" stats ∧
      (getField stats "name" = none →
        getField ([("name", JVal.str "p"), ("size", JVal.num 7)] : JsObj) "name"
          = some (JVal.str "p")) ∧
      ((stats.map Prod.fst).Nodup →
        ∀ k v, getField stats k = some v →
          getField ([("name", JVal.str "p"), ("size", JVal.num 7)] : JsObj) k = some v) :=
  statDirectory_record_name_and_copy [("p", [("size", JVal.num 7)])] _ rfl "p" _ (by decide)
